import Mathlib

/-!
Verification of the tokenizer (`analizar_lexico`) and recursive-descent
parser (`Parser` / `analizar_sintactico`) of the repository's `app.py`.

The tokenizer is a shallow embedding of the prioritized-alternative regex
scan: at each position the first matching pattern, in the source's
priority order (line comment, number, quoted string, identifier, operator
symbol with two-character forms first, delimiter, whitespace, unknown
single character), produces the next lexeme and the scan resumes right
after it.  Character classes are the ASCII classes of the source's
patterns.  The recursion over the input is driven by a fuel argument that
starts at the input length; every step consumes at least one character,
so that fuel is provably sufficient.

The parser is a shallow embedding of the `Parser` class: an explicit
state (token list, cursor index, diagnostics accumulated in order) and
one Lean function per `parse_*` method; the `while` loops of the source
become fuel-indexed tail-recursive loops, and a stability theorem shows
that a fuel linear in the token count is enough, which is the formal
content of the source's termination argument.
-/

/-- The `RESERVADAS` set of `app.py` (fixed reserved-word list, matched
against the lowercased lexeme). -/
def RESERVADAS : List String :=
  ["programa", "int", "float", "double", "char", "void",
   "for", "while", "if", "else",
   "read", "printf", "end", "return", "system", "print"]

/-- Token-kind tags, one per named group of the source's `token_specs`
regex, plus the post-match reclassification target `PALABRA_RESERVADA`
is produced later as a string.  -/
inductive Tag where
  | lineComment
  | numero
  | cadena
  | identificador
  | simbolo
  | delimitador
  | espacio
  | desconocido
deriving Repr, DecidableEq

/-- The `tipo` string the source attaches to each regex group. -/
def tagTipo : Tag → String
  | Tag.lineComment => "LINE_COMMENT"
  | Tag.numero => "NUMERO"
  | Tag.cadena => "CADENA"
  | Tag.identificador => "IDENTIFICADOR"
  | Tag.simbolo => "SIMBOLO"
  | Tag.delimitador => "DELIMITADOR"
  | Tag.espacio => "ESPACIO"
  | Tag.desconocido => "DESCONOCIDO"

/-- ASCII digit, as in the pattern `\d`. -/
def isDigitB (c : Char) : Bool := c.isDigit

/-- ASCII word character, as in the pattern `\w` (the spec restricts
identifiers to ASCII letters/digits/underscore). -/
def isWordB (c : Char) : Bool := c.isAlpha || c.isDigit || c = '_'

/-- ASCII whitespace, as in the pattern `\s`. -/
def isSpaceB (c : Char) : Bool :=
  c = ' ' || c = '\t' || c = '\n' || c = '\r' || c = '\x0b' || c = '\x0c'

/-- Single-character operator symbols: the class `[=+\-*/%<>]`. -/
def isSym1 (c : Char) : Bool :=
  c = '=' || c = '+' || c = '-' || c = '*' || c = '/' || c = '%' || c = '<' || c = '>'

/-- Delimiters: the class `[;(),\x7b\x7d.\[\]]`. -/
def isDelim (c : Char) : Bool :=
  c = ';' || c = '(' || c = ')' || c = ',' || c = '\x7b' || c = '\x7d' || c = '.' || c = '[' || c = ']'

/-- Two-character operator forms `<= >= == != ++ --`, which the regex
alternation tries before the single-character forms. -/
def twoCharSym (c d : Char) : Bool :=
  (c = '<' && d = '=') || (c = '>' && d = '=') || (c = '=' && d = '=') ||
  (c = '!' && d = '=') || (c = '+' && d = '+') || (c = '-' && d = '-')

/-- Character of a quoted-string body: the class `[^"\n]`. -/
def isStrBody (c : Char) : Bool := c != '"' && c != '\n'

/-- Character of a line-comment body: the class `[^\n]`. -/
def isNotNl (c : Char) : Bool := c != '\n'

/-- Last four alternatives of the regex (single-character operator,
delimiter, whitespace run, unknown single character), reached when the
current character starts none of the longer patterns.  Returns the tag
and the tail of the lexeme (the lexeme minus its leading character). -/
def nextTok1 (c : Char) (rest : List Char) : Tag × List Char :=
  if isSym1 c then (Tag.simbolo, [])
  else if isDelim c then (Tag.delimitador, [])
  else if isSpaceB c then (Tag.espacio, rest.takeWhile isSpaceB)
  else (Tag.desconocido, [])

/-- One step of the source's prioritized regex alternation at a position
whose first character is `c` and remaining input is `rest`.  Returns the
matched group's tag and the tail of the lexeme (the full lexeme is
`c :: tail`).  Each branch mirrors one alternative of `token_specs`, in
the source's order; a failing `CADENA` alternative (no closing quote on
the line) falls through to `DESCONOCIDO` exactly as the regex does. -/
def nextTok (c : Char) (rest : List Char) : Tag × List Char :=
  if c = '/' ∧ rest.head? = some '/' then
    (Tag.lineComment, '/' :: rest.tail.takeWhile isNotNl)
  else if isDigitB c then
    match rest.dropWhile isDigitB with
    | p :: r2 =>
      if p = '.' then
        match r2 with
        | d :: _ => if isDigitB d then
                      (Tag.numero, rest.takeWhile isDigitB ++ '.' :: r2.takeWhile isDigitB)
                    else (Tag.numero, rest.takeWhile isDigitB)
        | [] => (Tag.numero, rest.takeWhile isDigitB)
      else (Tag.numero, rest.takeWhile isDigitB)
    | [] => (Tag.numero, rest.takeWhile isDigitB)
  else if c = '"' then
    match rest.dropWhile isStrBody with
    | p :: _ => if p = '"' then (Tag.cadena, rest.takeWhile isStrBody ++ ['"'])
                else (Tag.desconocido, [])
    | [] => (Tag.desconocido, [])
  else if c.isAlpha || c = '_' then
    (Tag.identificador, rest.takeWhile isWordB)
  else
    match rest with
    | d :: _ => if twoCharSym c d then (Tag.simbolo, [d]) else nextTok1 c rest
    | [] => nextTok1 c rest

/-- A raw regex match: its group tag, full lexeme and starting offset. -/
structure RawTok where
  tag : Tag
  lexeme : List Char
  start : Nat
deriving Repr, DecidableEq

/-- The scan loop of `re.finditer` over the combined pattern: repeatedly
take the first match at the current position (every character matches
some alternative, so matches tile the input).  `fuel` bounds the number
of matches; every match consumes at least one character, so an initial
fuel equal to the input length is sufficient (`scanAux_coverage`). -/
def scanAux : Nat → List Char → Nat → List RawTok
  | 0, _, _ => []
  | _ + 1, [], _ => []
  | fuel + 1, c :: rest, pos =>
    let m := nextTok c rest
    { tag := m.1, lexeme := c :: m.2, start := pos } ::
      scanAux fuel (rest.drop m.2.length) (pos + (1 + m.2.length))

/-- All raw matches of the combined regex over the input. -/
def tokenizeRaw (cs : List Char) : List RawTok := scanAux cs.length cs 0

/-- `linea` of an absolute offset: 1 plus the number of newline
characters before it (the source computes the same value incrementally
from `splitlines(keepends=True)` line lengths). -/
def lineaDe (cs : List Char) (p : Nat) : Nat := (cs.take p).count '\n' + 1

/-- `columna` of an absolute offset: offset since the last newline plus 1
(the source's `m.start() - col_base + 1`). -/
def columnaDe (cs : List Char) (p : Nat) : Nat :=
  ((cs.take p).reverse.takeWhile isNotNl).length + 1

/-- A token as built by `analizar_lexico`:
`{"tipo": ..., "lexema": ..., "linea": ..., "columna": ...}`. -/
structure Tok where
  tipo : String
  lexema : String
  linea : Nat
  columna : Nat
deriving Repr, DecidableEq

/-- Python's `str.lower()` on the ASCII lexemes at hand. -/
def toLowerStr (s : String) : String := String.mk (s.data.map Char.toLower)

/-- `analizar_lexico` of `app.py`: run the regex scan, drop whitespace
and line comments, reclassify identifiers whose lowercased lexeme is in
`RESERVADAS`, and attach line/column computed from the match offset. -/
def analizar_lexico (codigo : String) : List Tok :=
  (tokenizeRaw codigo.data).filterMap fun r =>
    if r.tag = Tag.espacio ∨ r.tag = Tag.lineComment then none
    else
      let lexStr := String.mk r.lexeme
      let tipo := if r.tag = Tag.identificador ∧ toLowerStr lexStr ∈ RESERVADAS then
          "PALABRA_RESERVADA"
        else tagTipo r.tag
      some { tipo := tipo, lexema := lexStr,
             linea := lineaDe codigo.data r.start,
             columna := columnaDe codigo.data r.start }

/-- Parser state: the token list `self.t`, cursor `self.i` and diagnostic
list `self.err` of the `Parser` class (diagnostics are appended at the
end, preserving discovery order). -/
structure PState where
  t : List Tok
  i : Nat
  err : List String
deriving Repr, DecidableEq

/-- `Parser.peek()` (only ever called with its default offset `k = 0`):
the current token, or none when the cursor is out of range. -/
def peek (s : PState) : Option Tok := s.t[s.i]?

/-- Does an optional constraint (`tipo` or `lexema` argument of
`Parser.match`) accept a value?  `none` accepts everything. -/
def okOpt : Option String → String → Bool
  | none, _ => true
  | some w, v => v == w

/-- The default diagnostic text built by `Parser.match` when no explicit
message is supplied: expected constraints vs found token (or `EOF`),
with the line number (or `-` past the end of input). -/
def mensaje (tipo lexema : Option String) (tok : Option Tok) : String :=
  let esperado := tipo.toList ++ (lexema.map fun l => "'" ++ l ++ "'").toList
  let got := match tok with
    | none => "EOF"
    | some tk => tk.tipo ++ "('" ++ tk.lexema ++ "')"
  let lin := match tok with
    | none => "-"
    | some tk => toString tk.linea
  "Se esperaba " ++ String.intercalate " y " esperado ++
    " pero se encontró " ++ got ++ " (línea " ++ lin ++ ")."

/-- `Parser.match(tipo, lexema, msg)`: if the current token satisfies the
given constraints, consume it; otherwise append one diagnostic (the
explicit `msg` or the default `mensaje`) and, to guarantee forward
progress, still consume one token when one exists. -/
def pmatch (s : PState) (tipo lexema msg : Option String) : PState :=
  match peek s with
  | some tok =>
    if okOpt tipo tok.tipo && okOpt lexema tok.lexema then
      { s with i := s.i + 1 }
    else
      { s with i := s.i + 1,
               err := s.err ++ [msg.getD (mensaje tipo lexema (some tok))] }
  | none =>
    { s with err := s.err ++ [msg.getD (mensaje tipo lexema none)] }

/- The expression grammar of the source
(`parse_expr` / `parse_term` / `parse_factor` and the two `while` loops
inside `parse_expr` and `parse_term`), with a fuel argument standing for
the source's call stack and loop iterations.  Every recursive call
passes one unit less fuel; the stability theorems below show fuel linear
in the remaining token count makes the result fuel-independent, which is
the termination argument of the source. -/
mutual

/-- `Parser.parse_expr`: `term (('+'|'-') term)*`. -/
def parse_expr : Nat → PState → PState
  | 0, s => s
  | fuel + 1, s => exprLoop fuel (parse_term fuel s)

/-- The `while` loop of `parse_expr`: as long as the current token is a
`SIMBOLO` `+` or `-`, skip it and parse another term. -/
def exprLoop : Nat → PState → PState
  | 0, s => s
  | fuel + 1, s =>
    match peek s with
    | some tok =>
      if tok.tipo = "SIMBOLO" ∧ (tok.lexema = "+" ∨ tok.lexema = "-") then
        exprLoop fuel (parse_term fuel { s with i := s.i + 1 })
      else s
    | none => s

/-- `Parser.parse_term`: `factor (('*'|'/') factor)*`. -/
def parse_term : Nat → PState → PState
  | 0, s => s
  | fuel + 1, s => termLoop fuel (parse_factor fuel s)

/-- The `while` loop of `parse_term`: as long as the current token is a
`SIMBOLO` `*` or `/`, skip it and parse another factor. -/
def termLoop : Nat → PState → PState
  | 0, s => s
  | fuel + 1, s =>
    match peek s with
    | some tok =>
      if tok.tipo = "SIMBOLO" ∧ (tok.lexema = "*" ∨ tok.lexema = "/") then
        termLoop fuel (parse_factor fuel { s with i := s.i + 1 })
      else s
    | none => s

/-- `Parser.parse_factor`: identifier or number (consumed), or a
parenthesized expression; at end of input, the `Expresión incompleta.`
diagnostic; otherwise the invalid-factor diagnostic plus a one-token
advance. -/
def parse_factor : Nat → PState → PState
  | 0, s => s
  | fuel + 1, s =>
    match peek s with
    | none => { s with err := s.err ++ ["Expresión incompleta."] }
    | some tok =>
      if tok.tipo = "IDENTIFICADOR" ∨ tok.tipo = "NUMERO" then
        { s with i := s.i + 1 }
      else if tok.tipo = "DELIMITADOR" ∧ tok.lexema = "(" then
        pmatch (parse_expr fuel { s with i := s.i + 1 })
          (some "DELIMITADOR") (some ")") (some "Falta ')' para cerrar la expresión.")
      else
        { s with i := s.i + 1,
                 err := s.err ++ ["Factor inválido en la expresión: " ++ tok.tipo ++
                   "('" ++ tok.lexema ++ "') (línea " ++ toString tok.linea ++ ")."] }

end

/-- The `while` loop of `Parser.parse_decl`: as long as the current token
is `,`, skip it and require another identifier. -/
def declLoop : Nat → PState → PState
  | 0, s => s
  | fuel + 1, s =>
    match peek s with
    | some tok =>
      if tok.tipo = "DELIMITADOR" ∧ tok.lexema = "," then
        declLoop fuel (pmatch { s with i := s.i + 1 } (some "IDENTIFICADOR") none
          (some "Se esperaba un identificador después de ','."))
      else s
    | none => s

/-- `Parser.parse_decl`: `'int' id (',' id)* ';'`. -/
def parse_decl (fuel : Nat) (s : PState) : PState :=
  let s1 := pmatch s (some "PALABRA_RESERVADA") (some "int") none
  let s2 := pmatch s1 (some "IDENTIFICADOR") none
    (some "Se esperaba un identificador en la declaración.")
  let s3 := declLoop fuel s2
  pmatch s3 (some "DELIMITADOR") (some ";") (some "Falta ';' al final de la declaración.")

/-- `Parser.parse_read`: `'read' IDENT ';'`. -/
def parse_read (s : PState) : PState :=
  let s1 := pmatch s (some "PALABRA_RESERVADA") (some "read") none
  let s2 := pmatch s1 (some "IDENTIFICADOR") none
    (some "Se esperaba un identificador después de 'read'.")
  pmatch s2 (some "DELIMITADOR") (some ";") (some "Falta ';' después de la instrucción 'read'.")

/-- `Parser.parse_printf`: `'printf' '(' CADENA ')' ';'`. -/
def parse_printf (s : PState) : PState :=
  let s1 := pmatch s (some "PALABRA_RESERVADA") (some "printf") none
  let s2 := pmatch s1 (some "DELIMITADOR") (some "(") (some "Falta '(' en printf.")
  let s3 := pmatch s2 (some "CADENA") none (some "Falta la cadena dentro de printf.")
  let s4 := pmatch s3 (some "DELIMITADOR") (some ")") (some "Falta ')' al cerrar printf.")
  pmatch s4 (some "DELIMITADOR") (some ";") (some "Falta ';' al final de printf.")

/-- `Parser.parse_assign`: `IDENT '=' expr ';'`. -/
def parse_assign (fuel : Nat) (s : PState) : PState :=
  let s1 := pmatch s (some "IDENTIFICADOR") none none
  let s2 := pmatch s1 (some "SIMBOLO") (some "=") (some "Falta '=' en la asignación.")
  let s3 := parse_expr fuel s2
  pmatch s3 (some "DELIMITADOR") (some ";") (some "Falta ';' al final de la asignación.")

/-- `Parser.parse_stmt`: dispatch on the current token without consuming
it; `end` is handled inline (`self.i += 1` then `';'`), and anything
unrecognized appends the invalid-statement diagnostic and force-advances
one token. -/
def parse_stmt (fuel : Nat) (s : PState) : PState :=
  match peek s with
  | none => { s with err := s.err ++ ["Fin inesperado dentro del bloque."] }
  | some tok =>
    if tok.tipo = "PALABRA_RESERVADA" ∧ tok.lexema = "int" then parse_decl fuel s
    else if tok.tipo = "PALABRA_RESERVADA" ∧ tok.lexema = "read" then parse_read s
    else if tok.tipo = "PALABRA_RESERVADA" ∧ tok.lexema = "printf" then parse_printf s
    else if tok.tipo = "PALABRA_RESERVADA" ∧ tok.lexema = "end" then
      pmatch { s with i := s.i + 1 } (some "DELIMITADOR") (some ";")
        (some "Después de 'end' debe ir ';'.")
    else if tok.tipo = "IDENTIFICADOR" then parse_assign fuel s
    else
      { s with i := s.i + 1,
               err := s.err ++ ["Sentencia no válida iniciando en " ++ tok.tipo ++
                 "('" ++ tok.lexema ++ "') (línea " ++ toString tok.linea ++ ")."] }

/-- The statement loop of `Parser.parse_programa`: parse statements until
the current token is the closing brace or the input is exhausted. -/
def stmtLoop : Nat → PState → PState
  | 0, s => s
  | fuel + 1, s =>
    match peek s with
    | some tok =>
      if tok.tipo = "DELIMITADOR" ∧ tok.lexema = "\x7d" then s
      else stmtLoop fuel (parse_stmt fuel s)
    | none => s

/-- `Parser.parse_programa`:
`'programa' IDENT '(' ')' '\x7b' stmt* '\x7d'`. -/
def parse_programa (fuel : Nat) (s : PState) : PState :=
  let s1 := pmatch s (some "PALABRA_RESERVADA") (some "programa")
    (some "Se esperaba la palabra 'programa' al inicio.")
  let s2 := pmatch s1 (some "IDENTIFICADOR") none
    (some "Falta el nombre del programa después de 'programa'.")
  let s3 := pmatch s2 (some "DELIMITADOR") (some "(")
    (some "Falta '(' después del nombre del programa.")
  let s4 := pmatch s3 (some "DELIMITADOR") (some ")")
    (some "Falta ')' después del nombre del programa.")
  let s5 := pmatch s4 (some "DELIMITADOR") (some "\x7b")
    (some "Falta '\x7b' para abrir el bloque del programa.")
  let s6 := stmtLoop fuel s5
  pmatch s6 (some "DELIMITADOR") (some "\x7d") (some "Falta '\x7d' para cerrar el programa.")

/-- The result dictionary of `analizar_sintactico`:
`{"correcto": ..., "errores": ...}`. -/
structure ParseOut where
  correcto : Bool
  errores : List String
deriving Repr, DecidableEq

/-- `analizar_sintactico(codigo, tokens)`: run `parse_programa` from a
fresh `Parser`, append the trailing-tokens diagnostic when the cursor
stopped short of the end, and report validity as emptiness of the
diagnostic list.  The fuel `5 * tokens.length + 6` is above the
stability threshold of `parse_programa` (see `programaStable`), so any
larger fuel yields the same result. -/
def analizar_sintactico (_codigo : String) (tokens : List Tok) : ParseOut :=
  let p := parse_programa (5 * tokens.length + 6) { t := tokens, i := 0, err := [] }
  let errs := p.err ++
    (if h : p.i < tokens.length then
       let tok := tokens.get ⟨p.i, h⟩
       ["Tokens extra después de cerrar el programa, empezando en '" ++ tok.lexema ++
        "' (línea " ++ toString tok.linea ++ ")."]
     else [])
  { correcto := errs.length == 0, errores := errs }

/-- State-to-state invariant of every parser operation: same token list,
non-decreasing cursor, and cursor staying within bounds. -/
def StInv (s r : PState) : Prop :=
  r.t = s.t ∧ s.i ≤ r.i ∧ (s.i ≤ s.t.length → r.i ≤ s.t.length)

/-- Number of tokens not yet consumed. -/
def rem (s : PState) : Nat := s.t.length - s.i


/-! ### Tokenizer lemmas: every raw match is a prefix of the remaining
input, hence the matches tile the input (the coverage invariant). -/

/-- Dropping as many characters as `takeWhile` keeps leaves `dropWhile`. -/
theorem drop_len_takeWhile (p : Char → Bool) (l : List Char) :
    l.drop (l.takeWhile p).length = l.dropWhile p := by
  induction l with
  | nil => rfl
  | cons a t ih =>
    by_cases h : p a = true
    · simpa [List.takeWhile_cons, List.dropWhile_cons, h] using ih
    · simp [List.takeWhile_cons, List.dropWhile_cons, h]

/-- `takeWhile` is an initial segment: appending what was dropped
restores the list. -/
theorem takeWhile_tail (p : Char → Bool) (l : List Char) :
    l.takeWhile p ++ l.drop (l.takeWhile p).length = l := by
  rw [drop_len_takeWhile]
  exact List.takeWhile_append_dropWhile p l

/-- Initial segments are preserved by consing the same head. -/
theorem cons_tail (a : Char) (tl l : List Char)
    (h : tl ++ l.drop tl.length = l) :
    (a :: tl) ++ (a :: l).drop (a :: tl).length = a :: l := by
  simpa using congrArg (a :: ·) h

/-- Initial segments are preserved by prepending a common prefix. -/
theorem append_tail (l₁ l₂ tl : List Char)
    (h : tl ++ l₂.drop tl.length = l₂) :
    (l₁ ++ tl) ++ (l₁ ++ l₂).drop (l₁ ++ tl).length = l₁ ++ l₂ := by
  rw [List.length_append, List.drop_append, List.append_assoc, h]

/-- The lexeme tail returned by `nextTok` is an initial segment of the
remaining input: what the regex matched really is the next piece of the
source text. -/
theorem nextTok_tail (c : Char) (rest : List Char) :
    (nextTok c rest).2 ++ rest.drop (nextTok c rest).2.length = rest := by
  have h1 : ∀ r : List Char, (nextTok1 c r).2 ++ r.drop (nextTok1 c r).2.length = r := by
    intro r; unfold nextTok1; split_ifs <;> simp [takeWhile_tail]
  unfold nextTok
  split_ifs with hcom hdig hstr hid
  · -- line comment: rest starts with '/'
    obtain ⟨-, hh⟩ := hcom
    cases rest with
    | nil => simp at hh
    | cons a r2 =>
      simp only [List.head?_cons, Option.some.injEq] at hh
      subst hh
      exact cons_tail '/' (r2.takeWhile isNotNl) r2 (takeWhile_tail isNotNl r2)
  · -- number
    cases heq : rest.dropWhile isDigitB with
    | nil => exact takeWhile_tail isDigitB rest
    | cons p r2 =>
      dsimp only
      split_ifs with hp
      · subst hp
        have hsplit : rest.takeWhile isDigitB ++ '.' :: r2 = rest := by
          rw [← heq]; exact List.takeWhile_append_dropWhile isDigitB rest
        cases r2 with
        | nil => exact takeWhile_tail isDigitB rest
        | cons d r3 =>
          dsimp only
          split_ifs with hd
          · generalize hds : rest.takeWhile isDigitB = ds at hsplit ⊢
            rw [← hsplit]
            exact append_tail ds ('.' :: d :: r3) ('.' :: (d :: r3).takeWhile isDigitB)
              (cons_tail '.' ((d :: r3).takeWhile isDigitB) (d :: r3)
                (takeWhile_tail isDigitB (d :: r3)))
          · exact takeWhile_tail isDigitB rest
      · exact takeWhile_tail isDigitB rest
  · -- quoted string
    cases heq : rest.dropWhile isStrBody with
    | nil => simp
    | cons p r3 =>
      dsimp only
      split_ifs with hp
      · subst hp
        have hsplit : rest.takeWhile isStrBody ++ '"' :: r3 = rest := by
          rw [← heq]; exact List.takeWhile_append_dropWhile isStrBody rest
        generalize hds : rest.takeWhile isStrBody = ds at hsplit ⊢
        rw [← hsplit]
        exact append_tail ds ('"' :: r3) ['"'] (by simp)
      · simp
  · -- identifier
    exact takeWhile_tail isWordB rest
  · -- operators, delimiters, whitespace, unknown
    cases rest with
    | nil => exact h1 []
    | cons d r2 =>
      dsimp only
      split_ifs with htc
      · simp
      · exact h1 (d :: r2)

/-- Coverage of the raw scan: with fuel at least the input length, the
lexemes of the raw matches (tokens plus skipped whitespace/comment
spans), concatenated in order, reproduce the input exactly. -/
theorem scanAux_coverage :
    ∀ (fuel : Nat) (cs : List Char) (pos : Nat), cs.length ≤ fuel →
      ((scanAux fuel cs pos).map RawTok.lexeme).flatten = cs := by
  intro fuel
  induction fuel with
  | zero =>
    intro cs pos h
    have : cs = [] := List.length_eq_zero.mp (Nat.le_zero.mp h)
    subst this; rfl
  | succ n ih =>
    intro cs pos h
    cases cs with
    | nil => rfl
    | cons c rest =>
      have hlen : (rest.drop (nextTok c rest).2.length).length ≤ n := by
        have h1 : (rest.drop (nextTok c rest).2.length).length ≤ rest.length := by
          rw [List.length_drop]; omega
        have h2 : rest.length ≤ n := by
          simpa using Nat.succ_le_succ_iff.mp h
        omega
      calc ((scanAux (n + 1) (c :: rest) pos).map RawTok.lexeme).flatten
          = (c :: (nextTok c rest).2) ++
              ((scanAux n (rest.drop (nextTok c rest).2.length)
                (pos + (1 + (nextTok c rest).2.length))).map RawTok.lexeme).flatten := by
            simp [scanAux]
        _ = (c :: (nextTok c rest).2) ++ rest.drop (nextTok c rest).2.length := by
            rw [ih _ _ hlen]
        _ = c :: rest := by
            exact congrArg (c :: ·) (nextTok_tail c rest)

/-- Every raw match starts at or after the running offset. -/
theorem scanAux_start_lb :
    ∀ (fuel : Nat) (cs : List Char) (pos : Nat) (r : RawTok),
      r ∈ scanAux fuel cs pos → pos ≤ r.start := by
  intro fuel
  induction fuel with
  | zero => intro cs pos r h; simp [scanAux] at h
  | succ n ih =>
    intro cs pos r h
    cases cs with
    | nil => simp [scanAux] at h
    | cons c rest =>
      simp only [scanAux, List.mem_cons] at h
      rcases h with h | h
      · subst h; exact Nat.le_refl _
      · have := ih _ _ _ h
        omega

/-- Raw matches carry strictly increasing starting offsets. -/
theorem scanAux_sorted :
    ∀ (fuel : Nat) (cs : List Char) (pos : Nat),
      (scanAux fuel cs pos).Pairwise (fun a b => a.start < b.start) := by
  intro fuel
  induction fuel with
  | zero => intro cs pos; simp [scanAux]
  | succ n ih =>
    intro cs pos
    cases cs with
    | nil => simp [scanAux]
    | cons c rest =>
      simp only [scanAux]
      refine List.Pairwise.cons ?_ (ih _ _)
      intro r hr
      have := scanAux_start_lb _ _ _ _ hr
      simp only
      omega

/-! ### Parser lemmas: the token list is never modified, the cursor never
moves backwards, and it never leaves the range `0 ≤ i ≤ t.length`. -/

/-- A current token exists exactly when the cursor is strictly inside
the token list. -/
theorem peek_some_lt {s : PState} {tok : Tok} (h : peek s = some tok) :
    s.i < s.t.length := by
  by_contra hlt
  rw [peek, List.getElem?_eq_none (Nat.le_of_not_lt hlt)] at h
  exact Option.noConfusion h

/-- Past the end of the token list there is no current token. -/
theorem peek_none {s : PState} (h : s.t.length ≤ s.i) : peek s = none :=
  List.getElem?_eq_none h

/-- `Parser.match` with a current token always advances the cursor by
exactly one, whether or not the token satisfied the constraints. -/
theorem pmatch_i_of_some {s : PState} {tok : Tok} (h : peek s = some tok)
    (tipo lexema msg : Option String) :
    (pmatch s tipo lexema msg).i = s.i + 1 := by
  unfold pmatch
  rw [h]
  dsimp only
  split_ifs <;> rfl

/-- `Parser.match` at end of input only appends its diagnostic: the
cursor and token list are untouched. -/
theorem pmatch_of_none {s : PState} (h : peek s = none)
    (tipo lexema msg : Option String) :
    pmatch s tipo lexema msg =
      { s with err := s.err ++ [msg.getD (mensaje tipo lexema none)] } := by
  unfold pmatch
  rw [h]

/-- `Parser.match` never touches the token list. -/
theorem pmatch_t (s : PState) (tipo lexema msg : Option String) :
    (pmatch s tipo lexema msg).t = s.t := by
  unfold pmatch
  cases hp : peek s
  · rfl
  · dsimp only
    split_ifs <;> rfl

/-- `Parser.match` never moves the cursor backwards. -/
theorem pmatch_i_le (s : PState) (tipo lexema msg : Option String) :
    s.i ≤ (pmatch s tipo lexema msg).i := by
  unfold pmatch
  cases hp : peek s
  · exact Nat.le_refl _
  · dsimp only
    split_ifs <;> exact Nat.le_succ _

theorem stInv_refl (s : PState) : StInv s s :=
  ⟨rfl, Nat.le_refl _, fun h => h⟩

theorem stInv_trans {s r q : PState} (h1 : StInv s r) (h2 : StInv r q) :
    StInv s q := by
  obtain ⟨ht1, hi1, hb1⟩ := h1
  obtain ⟨ht2, hi2, hb2⟩ := h2
  refine ⟨ht2.trans ht1, hi1.trans hi2, fun h => ?_⟩
  have := hb2 (by rw [ht1]; exact hb1 h)
  rwa [ht1] at this

theorem stInv_pmatch (s : PState) (tipo lexema msg : Option String) :
    StInv s (pmatch s tipo lexema msg) := by
  refine ⟨pmatch_t s tipo lexema msg, pmatch_i_le s tipo lexema msg, fun h => ?_⟩
  unfold pmatch
  cases hp : peek s
  · exact h
  · have := peek_some_lt hp
    dsimp only
    split_ifs <;> simpa using this

theorem stInv_bump {s : PState} {tok : Tok} (h : peek s = some tok)
    (e : List String) : StInv s ⟨s.t, s.i + 1, e⟩ :=
  ⟨rfl, Nat.le_succ _, fun _ => peek_some_lt h⟩

theorem stInv_err (s : PState) (e : List String) : StInv s ⟨s.t, s.i, e⟩ :=
  ⟨rfl, Nat.le_refl _, fun h => h⟩

/-- The expression-grammar functions preserve the parser invariant, for
every fuel value. -/
theorem exprInv (fuel : Nat) :
    (∀ s, StInv s (parse_expr fuel s)) ∧
    (∀ s, StInv s (exprLoop fuel s)) ∧
    (∀ s, StInv s (parse_term fuel s)) ∧
    (∀ s, StInv s (termLoop fuel s)) ∧
    (∀ s, StInv s (parse_factor fuel s)) := by
  induction fuel with
  | zero =>
    exact ⟨fun s => stInv_refl s, fun s => stInv_refl s, fun s => stInv_refl s,
      fun s => stInv_refl s, fun s => stInv_refl s⟩
  | succ n ih =>
    obtain ⟨ihe, ihel, iht, ihtl, ihf⟩ := ih
    refine ⟨fun s => ?_, fun s => ?_, fun s => ?_, fun s => ?_, fun s => ?_⟩
    · exact stInv_trans (iht s) (ihel _)
    · unfold exprLoop
      cases hp : peek s
      · exact stInv_refl s
      · dsimp only
        split_ifs
        · exact stInv_trans (stInv_bump hp s.err) (stInv_trans (iht _) (ihel _))
        · exact stInv_refl s
    · exact stInv_trans (ihf s) (ihtl _)
    · unfold termLoop
      cases hp : peek s
      · exact stInv_refl s
      · dsimp only
        split_ifs
        · exact stInv_trans (stInv_bump hp s.err) (stInv_trans (ihf _) (ihtl _))
        · exact stInv_refl s
    · unfold parse_factor
      cases hp : peek s
      · exact stInv_err s _
      · dsimp only
        split_ifs
        · exact stInv_bump hp s.err
        · exact stInv_trans (stInv_bump hp s.err)
            (stInv_trans (ihe _) (stInv_pmatch _ _ _ _))
        · exact stInv_bump hp _

/-- The declaration comma-loop preserves the parser invariant. -/
theorem declLoop_inv : ∀ (fuel : Nat) (s : PState), StInv s (declLoop fuel s) := by
  intro fuel
  induction fuel with
  | zero => exact fun s => stInv_refl s
  | succ n ih =>
    intro s
    unfold declLoop
    cases hp : peek s
    · exact stInv_refl s
    · dsimp only
      split_ifs
      · exact stInv_trans (stInv_bump hp s.err)
          (stInv_trans (stInv_pmatch _ _ _ _) (ih _))
      · exact stInv_refl s

/-- `parse_decl` preserves the parser invariant. -/
theorem parse_decl_inv (fuel : Nat) (s : PState) : StInv s (parse_decl fuel s) :=
  stInv_trans (stInv_pmatch s _ _ _)
    (stInv_trans (stInv_pmatch _ _ _ _)
      (stInv_trans (declLoop_inv fuel _) (stInv_pmatch _ _ _ _)))

/-- `parse_read` preserves the parser invariant. -/
theorem parse_read_inv (s : PState) : StInv s (parse_read s) :=
  stInv_trans (stInv_pmatch s _ _ _)
    (stInv_trans (stInv_pmatch _ _ _ _) (stInv_pmatch _ _ _ _))

/-- `parse_printf` preserves the parser invariant. -/
theorem parse_printf_inv (s : PState) : StInv s (parse_printf s) :=
  stInv_trans (stInv_pmatch s _ _ _)
    (stInv_trans (stInv_pmatch _ _ _ _)
      (stInv_trans (stInv_pmatch _ _ _ _)
        (stInv_trans (stInv_pmatch _ _ _ _) (stInv_pmatch _ _ _ _))))

/-- `parse_assign` preserves the parser invariant. -/
theorem parse_assign_inv (fuel : Nat) (s : PState) : StInv s (parse_assign fuel s) :=
  stInv_trans (stInv_pmatch s _ _ _)
    (stInv_trans (stInv_pmatch _ _ _ _)
      (stInv_trans ((exprInv fuel).1 _) (stInv_pmatch _ _ _ _)))

/-- `parse_stmt` preserves the parser invariant. -/
theorem parse_stmt_inv (fuel : Nat) (s : PState) : StInv s (parse_stmt fuel s) := by
  unfold parse_stmt
  cases hp : peek s
  · exact stInv_err s _
  · dsimp only
    split_ifs
    · exact parse_decl_inv fuel s
    · exact parse_read_inv s
    · exact parse_printf_inv s
    · exact stInv_trans (stInv_bump hp s.err) (stInv_pmatch _ _ _ _)
    · exact parse_assign_inv fuel s
    · exact stInv_bump hp _

/-- Strict cursor progress survives any further invariant-preserving
step. -/
theorem lt_of_stInv {s r q : PState} (h1 : s.i < r.i) (h2 : StInv r q) :
    s.i < q.i :=
  Nat.lt_of_lt_of_le h1 h2.2.1

/-- With a current token, `parse_stmt` strictly advances the cursor
(every dispatch branch consumes at least one token). -/
theorem parse_stmt_advance {s : PState} {tok : Tok} (hp : peek s = some tok)
    (fuel : Nat) : s.i < (parse_stmt fuel s).i := by
  unfold parse_stmt
  rw [hp]
  dsimp only
  split_ifs
  · -- decl
    unfold parse_decl
    dsimp only
    have h1 : s.i < (pmatch s (some "PALABRA_RESERVADA") (some "int") none).i := by
      rw [pmatch_i_of_some hp]
      omega
    exact lt_of_stInv (lt_of_stInv (lt_of_stInv h1 (stInv_pmatch _ _ _ _))
      (declLoop_inv _ _)) (stInv_pmatch _ _ _ _)
  · -- read
    unfold parse_read
    dsimp only
    have h1 : s.i < (pmatch s (some "PALABRA_RESERVADA") (some "read") none).i := by
      rw [pmatch_i_of_some hp]
      omega
    exact lt_of_stInv (lt_of_stInv h1 (stInv_pmatch _ _ _ _)) (stInv_pmatch _ _ _ _)
  · -- printf
    unfold parse_printf
    dsimp only
    have h1 : s.i < (pmatch s (some "PALABRA_RESERVADA") (some "printf") none).i := by
      rw [pmatch_i_of_some hp]
      omega
    exact lt_of_stInv (lt_of_stInv (lt_of_stInv (lt_of_stInv h1
      (stInv_pmatch _ _ _ _)) (stInv_pmatch _ _ _ _)) (stInv_pmatch _ _ _ _))
      (stInv_pmatch _ _ _ _)
  · -- end
    exact Nat.lt_of_lt_of_le (Nat.lt_succ_self s.i)
      (pmatch_i_le { s with i := s.i + 1 } (some "DELIMITADOR") (some ";")
        (some "Después de 'end' debe ir ';'."))
  · -- assign
    unfold parse_assign
    dsimp only
    have h1 : s.i < (pmatch s (some "IDENTIFICADOR") none none).i := by
      rw [pmatch_i_of_some hp]
      omega
    exact lt_of_stInv (lt_of_stInv (lt_of_stInv h1 (stInv_pmatch _ _ _ _))
      ((exprInv fuel).1 _)) (stInv_pmatch _ _ _ _)
  · -- invalid statement
    exact Nat.lt_succ_self _

/-- The statement loop preserves the parser invariant. -/
theorem stmtLoop_inv : ∀ (fuel : Nat) (s : PState), StInv s (stmtLoop fuel s) := by
  intro fuel
  induction fuel with
  | zero => exact fun s => stInv_refl s
  | succ n ih =>
    intro s
    unfold stmtLoop
    cases hp : peek s
    · exact stInv_refl s
    · dsimp only
      split_ifs
      · exact stInv_refl s
      · exact stInv_trans (parse_stmt_inv n s) (ih _)

/-- `parse_programa` preserves the parser invariant. -/
theorem parse_programa_inv (fuel : Nat) (s : PState) :
    StInv s (parse_programa fuel s) :=
  stInv_trans (stInv_pmatch s _ _ _)
    (stInv_trans (stInv_pmatch _ _ _ _)
      (stInv_trans (stInv_pmatch _ _ _ _)
        (stInv_trans (stInv_pmatch _ _ _ _)
          (stInv_trans (stInv_pmatch _ _ _ _)
            (stInv_trans (stmtLoop_inv fuel _) (stInv_pmatch _ _ _ _))))))

/-! ### Fuel stability: above an explicit threshold linear in the number
of remaining tokens, the fuel argument does not influence any parser
result.  This is the formal counterpart of the source's termination
argument (every failing path advances the cursor or returns). -/

/-- An invariant-preserving step never increases the remaining-token
count. -/
theorem rem_le_of_stInv {s r : PState} (h : StInv s r) : rem r ≤ rem s := by
  obtain ⟨ht, hi, -⟩ := h
  unfold rem
  rw [ht]
  omega

/-- A function that is fuel-stable from one step to the next above a
measure is fuel-independent above that measure. -/
theorem stable_two {f : Nat → PState → PState} {μ : PState → Nat}
    (H : ∀ fuel s, μ s < fuel → f (fuel + 1) s = f fuel s)
    {s : PState} {f₁ f₂ : Nat} (h₁ : μ s < f₁) (h₂ : μ s < f₂) :
    f f₁ s = f f₂ s := by
  have key : ∀ n m : Nat, μ s < n → n ≤ m → f m s = f n s := by
    intro n m hn hnm
    induction m, hnm using Nat.le_induction with
    | base => rfl
    | succ m hm ih =>
      rw [H m s (Nat.lt_of_lt_of_le hn hm), ih]
  rcases Nat.le_total f₁ f₂ with h | h
  · exact (key f₁ f₂ h₁ h).symm
  · exact key f₂ f₁ h₂ h

/-- One-step fuel stability of the expression grammar: with fuel above
five times the remaining tokens (plus a rank offset for the call chain
`expr → term → factor`), adding fuel changes nothing. -/
theorem exprStable (fuel : Nat) :
    (∀ s, 5 * rem s + 4 < fuel → parse_expr (fuel + 1) s = parse_expr fuel s) ∧
    (∀ s, 5 * rem s + 3 < fuel → exprLoop (fuel + 1) s = exprLoop fuel s) ∧
    (∀ s, 5 * rem s + 2 < fuel → parse_term (fuel + 1) s = parse_term fuel s) ∧
    (∀ s, 5 * rem s + 1 < fuel → termLoop (fuel + 1) s = termLoop fuel s) ∧
    (∀ s, 5 * rem s < fuel → parse_factor (fuel + 1) s = parse_factor fuel s) := by
  induction fuel with
  | zero => exact ⟨fun s h => absurd h (by omega), fun s h => absurd h (by omega),
      fun s h => absurd h (by omega), fun s h => absurd h (by omega),
      fun s h => absurd h (by omega)⟩
  | succ n ih =>
    obtain ⟨ihe, ihel, iht, ihtl, ihf⟩ := ih
    refine ⟨fun s h => ?_, fun s h => ?_, fun s h => ?_, fun s h => ?_, fun s h => ?_⟩
    · -- parse_expr
      show exprLoop (n + 1) (parse_term (n + 1) s) = exprLoop n (parse_term n s)
      have ht : parse_term (n + 1) s = parse_term n s := iht s (by omega)
      rw [ht]
      exact ihel (parse_term n s) (by
        have h1 := rem_le_of_stInv ((exprInv n).2.2.1 s)
        omega)
    · -- exprLoop
      unfold exprLoop
      cases hp : peek s
      · rfl
      · dsimp only
        split_ifs
        · have hlt := peek_some_lt hp
          have hr : rem { s with i := s.i + 1 } = s.t.length - (s.i + 1) := rfl
          have hr0 : rem s = s.t.length - s.i := rfl
          have ht : parse_term (n + 1) { s with i := s.i + 1 } =
              parse_term n { s with i := s.i + 1 } := iht _ (by omega)
          rw [ht]
          exact ihel (parse_term n { s with i := s.i + 1 }) (by
            have h1 := rem_le_of_stInv ((exprInv n).2.2.1 { s with i := s.i + 1 })
            omega)
        · rfl
    · -- parse_term
      show termLoop (n + 1) (parse_factor (n + 1) s) = termLoop n (parse_factor n s)
      have hf : parse_factor (n + 1) s = parse_factor n s := ihf s (by omega)
      rw [hf]
      exact ihtl (parse_factor n s) (by
        have h1 := rem_le_of_stInv ((exprInv n).2.2.2.2 s)
        omega)
    · -- termLoop
      unfold termLoop
      cases hp : peek s
      · rfl
      · dsimp only
        split_ifs
        · have hlt := peek_some_lt hp
          have hr : rem { s with i := s.i + 1 } = s.t.length - (s.i + 1) := rfl
          have hr0 : rem s = s.t.length - s.i := rfl
          have hf : parse_factor (n + 1) { s with i := s.i + 1 } =
              parse_factor n { s with i := s.i + 1 } := ihf _ (by omega)
          rw [hf]
          exact ihtl (parse_factor n { s with i := s.i + 1 }) (by
            have h1 := rem_le_of_stInv ((exprInv n).2.2.2.2 { s with i := s.i + 1 })
            omega)
        · rfl
    · -- parse_factor
      unfold parse_factor
      cases hp : peek s
      · rfl
      · dsimp only
        split_ifs
        · rfl
        · have hlt := peek_some_lt hp
          have hr : rem { s with i := s.i + 1 } = s.t.length - (s.i + 1) := rfl
          have hr0 : rem s = s.t.length - s.i := rfl
          have he : parse_expr (n + 1) { s with i := s.i + 1 } =
              parse_expr n { s with i := s.i + 1 } := ihe _ (by omega)
          rw [he]
        · rfl

/-- One-step fuel stability of the declaration comma-loop: each
iteration consumes at least one token. -/
theorem declLoopStable :
    ∀ (fuel : Nat) (s : PState), rem s < fuel →
      declLoop (fuel + 1) s = declLoop fuel s := by
  intro fuel
  induction fuel with
  | zero => exact fun s h => absurd h (by omega)
  | succ n ih =>
    intro s h
    unfold declLoop
    cases hp : peek s
    · rfl
    · dsimp only
      split_ifs
      · have hlt := peek_some_lt hp
        have hr0 : rem s = s.t.length - s.i := rfl
        refine ih _ ?_
        have h1 := rem_le_of_stInv
          (stInv_pmatch { s with i := s.i + 1 } (some "IDENTIFICADOR") none
            (some "Se esperaba un identificador después de ','."))
        have hr : rem { s with i := s.i + 1 } = s.t.length - (s.i + 1) := rfl
        omega
      · rfl

/-- One-step fuel stability of `parse_decl`. -/
theorem parse_declStable (fuel : Nat) (s : PState) (h : rem s < fuel) :
    parse_decl (fuel + 1) s = parse_decl fuel s := by
  unfold parse_decl
  dsimp only
  rw [declLoopStable fuel _ ?_]
  have h1 := rem_le_of_stInv (stInv_trans (stInv_pmatch s (some "PALABRA_RESERVADA")
    (some "int") none) (stInv_pmatch _ (some "IDENTIFICADOR") none
    (some "Se esperaba un identificador en la declaración.")))
  omega

/-- One-step fuel stability of `parse_assign`. -/
theorem parse_assignStable (fuel : Nat) (s : PState) (h : 5 * rem s + 4 < fuel) :
    parse_assign (fuel + 1) s = parse_assign fuel s := by
  unfold parse_assign
  dsimp only
  rw [(exprStable fuel).1 _ ?_]
  have h1 := rem_le_of_stInv (stInv_trans (stInv_pmatch s (some "IDENTIFICADOR") none none)
    (stInv_pmatch _ (some "SIMBOLO") (some "=") (some "Falta '=' en la asignación.")))
  omega

/-- One-step fuel stability of `parse_stmt`. -/
theorem parse_stmtStable (fuel : Nat) (s : PState) (h : 5 * rem s + 4 < fuel) :
    parse_stmt (fuel + 1) s = parse_stmt fuel s := by
  unfold parse_stmt
  cases hp : peek s
  · rfl
  · dsimp only
    split_ifs
    · exact parse_declStable fuel s (by omega)
    · rfl
    · rfl
    · rfl
    · exact parse_assignStable fuel s h
    · rfl

/-- One-step fuel stability of the statement loop: each iteration
strictly advances the cursor (`parse_stmt_advance`). -/
theorem stmtLoopStable :
    ∀ (fuel : Nat) (s : PState), 5 * rem s + 5 < fuel →
      stmtLoop (fuel + 1) s = stmtLoop fuel s := by
  intro fuel
  induction fuel with
  | zero => exact fun s h => absurd h (by omega)
  | succ n ih =>
    intro s h
    unfold stmtLoop
    cases hp : peek s
    · rfl
    · dsimp only
      split_ifs
      · rfl
      · have hst : parse_stmt (n + 1) s = parse_stmt n s :=
          parse_stmtStable n s (by omega)
        rw [hst]
        refine ih _ ?_
        have hadv := parse_stmt_advance hp n
        have hT := (parse_stmt_inv n s).1
        have hlt := peek_some_lt hp
        have hr : rem (parse_stmt n s) = (parse_stmt n s).t.length - (parse_stmt n s).i := rfl
        have hr0 : rem s = s.t.length - s.i := rfl
        rw [hT] at hr
        omega

/-- One-step fuel stability of `parse_programa`. -/
theorem programaStable (fuel : Nat) (s : PState) (h : 5 * rem s + 5 < fuel) :
    parse_programa (fuel + 1) s = parse_programa fuel s := by
  unfold parse_programa
  dsimp only
  rw [stmtLoopStable fuel _ ?_]
  have h1 := rem_le_of_stInv
    (stInv_trans (stInv_pmatch s (some "PALABRA_RESERVADA") (some "programa")
        (some "Se esperaba la palabra 'programa' al inicio."))
      (stInv_trans (stInv_pmatch _ (some "IDENTIFICADOR") none
          (some "Falta el nombre del programa después de 'programa'."))
        (stInv_trans (stInv_pmatch _ (some "DELIMITADOR") (some "(")
            (some "Falta '(' después del nombre del programa."))
          (stInv_trans (stInv_pmatch _ (some "DELIMITADOR") (some ")")
              (some "Falta ')' después del nombre del programa."))
            (stInv_pmatch _ (some "DELIMITADOR") (some "\x7b")
              (some "Falta '\x7b' para abrir el bloque del programa."))))))
  omega

/-! ### Facts about token classification used by the claims. -/

/-- Only the identifier group carries the `IDENTIFICADOR` kind string. -/
theorem tagTipo_eq_ident {g : Tag} (h : tagTipo g = "IDENTIFICADOR") :
    g = Tag.identificador := by
  cases g <;> first | rfl | exact absurd h (by decide)

/-- No regex group carries the `PALABRA_RESERVADA` kind string: it only
arises from the post-match reclassification. -/
theorem tagTipo_ne_reservada (g : Tag) : tagTipo g ≠ "PALABRA_RESERVADA" := by
  cases g <;> decide

/-- If the characters dropped by the string-body scan begin with a
closing quote, that quote lies on the current line. -/
theorem quote_in_take :
    ∀ (rest r3 : List Char), rest.dropWhile isStrBody = '"' :: r3 →
      '"' ∈ rest.takeWhile isNotNl := by
  intro rest
  induction rest with
  | nil => intro r3 h; exact absurd h (by simp)
  | cons a t ih =>
    intro r3 h
    by_cases hb : isStrBody a = true
    · rw [List.dropWhile_cons_of_pos hb] at h
      have hnl : isNotNl a = true := by
        unfold isStrBody at hb
        unfold isNotNl
        exact (Bool.and_elim_right hb)
      rw [List.takeWhile_cons_of_pos hnl]
      exact List.mem_cons_of_mem a (ih r3 h)
    · rw [List.dropWhile_cons_of_neg hb] at h
      have ha : a = '"' := (List.cons.injEq _ _ _ _).mp h |>.1
      subst ha
      rw [List.takeWhile_cons_of_pos (by decide)]
      exact List.mem_cons_self _ _

/-- An opening quote with no closing quote on its line fails the
`CADENA` alternative and falls through to a single-character
`DESCONOCIDO` match. -/
theorem nextTok_unterminated (rest : List Char)
    (h : '"' ∉ rest.takeWhile isNotNl) :
    nextTok '"' rest = (Tag.desconocido, []) := by
  unfold nextTok
  rw [if_neg (fun hc => absurd hc.1 (by decide))]
  rw [if_neg (by decide)]
  rw [if_pos rfl]
  cases hdw : rest.dropWhile isStrBody with
  | nil => rfl
  | cons p r3 =>
    dsimp only
    rw [if_neg ?_]
    intro hp
    subst hp
    exact h (quote_in_take rest r3 hdw)

/-- Only the whitespace group carries the `ESPACIO` kind string. -/
theorem tagTipo_eq_espacio {g : Tag} (h : tagTipo g = "ESPACIO") :
    g = Tag.espacio := by
  cases g <;> first | rfl | exact absurd h (by decide)

/-- Only the comment group carries the `LINE_COMMENT` kind string. -/
theorem tagTipo_eq_comment {g : Tag} (h : tagTipo g = "LINE_COMMENT") :
    g = Tag.lineComment := by
  cases g <;> first | rfl | exact absurd h (by decide)

/-- Shape of every token produced by `analizar_lexico`: it comes from a
non-whitespace, non-comment raw match, reclassified by the reserved-word
test. -/
theorem mem_analizar_lexico {s : String} {t : Tok} (ht : t ∈ analizar_lexico s) :
    ∃ r ∈ tokenizeRaw s.data,
      (r.tag ≠ Tag.espacio ∧ r.tag ≠ Tag.lineComment) ∧
      t = { tipo := if r.tag = Tag.identificador ∧ toLowerStr (String.mk r.lexeme) ∈ RESERVADAS
                    then "PALABRA_RESERVADA" else tagTipo r.tag,
            lexema := String.mk r.lexeme,
            linea := lineaDe s.data r.start,
            columna := columnaDe s.data r.start } := by
  unfold analizar_lexico at ht
  rw [List.mem_filterMap] at ht
  obtain ⟨r, hr, hmap⟩ := ht
  by_cases hskip : r.tag = Tag.espacio ∨ r.tag = Tag.lineComment
  · rw [if_pos hskip] at hmap
    exact absurd hmap (by simp)
  · rw [if_neg hskip] at hmap
    dsimp only at hmap
    refine ⟨r, hr, ⟨fun h => hskip (Or.inl h), fun h => hskip (Or.inr h)⟩, ?_⟩
    exact ((Option.some.injEq _ _).mp hmap).symm

/-- C4: for every input, the concatenated lexemes of all raw matches
(emitted tokens plus the skipped whitespace and line-comment spans)
reproduce the input exactly once and in order; the matches that become
tokens carry strictly increasing source offsets; and no whitespace or
line-comment kind ever appears among the emitted tokens. -/
theorem tokenizer_coverage (cs : List Char) :
    ((tokenizeRaw cs).map RawTok.lexeme).flatten = cs ∧
    ((tokenizeRaw cs).filter
        (fun r => decide (r.tag ≠ Tag.espacio ∧ r.tag ≠ Tag.lineComment))).Pairwise
      (fun a b => a.start < b.start) ∧
    ∀ t ∈ analizar_lexico (String.mk cs), t.tipo ≠ "ESPACIO" ∧ t.tipo ≠ "LINE_COMMENT" := by
  refine ⟨scanAux_coverage cs.length cs 0 (Nat.le_refl _), ?_, ?_⟩
  · exact List.Pairwise.sublist (List.filter_sublist _) (scanAux_sorted cs.length cs 0)
  · intro t ht
    obtain ⟨r, -, hskip, hshape⟩ := mem_analizar_lexico ht
    subst hshape
    dsimp only
    split_ifs with h1
    · exact ⟨by decide, by decide⟩
    · constructor
      · intro hesp
        exact hskip.1 (tagTipo_eq_espacio hesp)
      · intro hcom
        exact hskip.2 (tagTipo_eq_comment hcom)

/-- C4 witness: concrete instance of the coverage statement. -/
theorem tokenizer_coverage_witness :
    ((tokenizeRaw ("x 1".data)).map RawTok.lexeme).flatten = "x 1".data ∧
    (⟨"IDENTIFICADOR", "x", 1, 1⟩ : Tok).tipo ≠ "ESPACIO" :=
  ⟨(tokenizer_coverage ("x 1".data)).1,
   ((tokenizer_coverage ("x 1".data)).2.2 ⟨"IDENTIFICADOR", "x", 1, 1⟩ (by decide)).1⟩

/-- C7: an emitted `IDENTIFICADOR` never matches the reserved-word set
case-insensitively, an emitted `PALABRA_RESERVADA` always does, and the
lexemes `INT`, `Int`, `int` all come out reserved with their original
casing intact (while an identifier outside the set stays an
identifier). -/
theorem reservadas_case_insensitive :
    (∀ (s : String), ∀ t ∈ analizar_lexico s,
      (t.tipo = "IDENTIFICADOR" → toLowerStr t.lexema ∉ RESERVADAS) ∧
      (t.tipo = "PALABRA_RESERVADA" → toLowerStr t.lexema ∈ RESERVADAS)) ∧
    analizar_lexico "INT" = [⟨"PALABRA_RESERVADA", "INT", 1, 1⟩] ∧
    analizar_lexico "Int" = [⟨"PALABRA_RESERVADA", "Int", 1, 1⟩] ∧
    analizar_lexico "int" = [⟨"PALABRA_RESERVADA", "int", 1, 1⟩] ∧
    analizar_lexico "INTS" = [⟨"IDENTIFICADOR", "INTS", 1, 1⟩] := by
  refine ⟨?_, by decide, by decide, by decide, by decide⟩
  intro s t ht
  obtain ⟨r, -, -, hshape⟩ := mem_analizar_lexico ht
  subst hshape
  dsimp only
  split_ifs with h1
  · refine ⟨fun hid => absurd hid (by decide), fun _ => h1.2⟩
  · constructor
    · intro hid hmem
      exact h1 ⟨tagTipo_eq_ident hid, hmem⟩
    · intro hpr
      exact absurd hpr (tagTipo_ne_reservada r.tag)

/-- C7 witness: concrete instance of the reclassification facts. -/
theorem reservadas_case_insensitive_witness :
    toLowerStr "INT" ∈ RESERVADAS :=
  (reservadas_case_insensitive.1 "INT" ⟨"PALABRA_RESERVADA", "INT", 1, 1⟩
    (by decide)).2 (by decide)

/-- C8: on the input `a<=b` the two-character operator `<=` is matched
before the single-character forms, so the token sequence is exactly
identifier `a`, operator `<=`, identifier `b`. -/
theorem operator_longest_match :
    analizar_lexico "a<=b" =
      [⟨"IDENTIFICADOR", "a", 1, 1⟩, ⟨"SIMBOLO", "<=", 1, 2⟩,
       ⟨"IDENTIFICADOR", "b", 1, 4⟩] := by decide

/-- C3 counterexample: on the input `"ab` (an opening quote never closed
before the end of the line) the tokenizer does NOT emit a string-literal
token reaching the end of the line; it emits a single-character
`DESCONOCIDO` token for the quote and tokenizes the remainder
normally. -/
theorem unterminated_string_not_cadena :
    analizar_lexico "\"ab" =
      [⟨"DESCONOCIDO", "\"", 1, 1⟩, ⟨"IDENTIFICADOR", "ab", 1, 2⟩] ∧
    (analizar_lexico "\"ab").all (fun t => t.tipo != "CADENA") = true := by decide

/-- C3 amended: when a `"` is followed on its line by no closing `"`,
the `CADENA` pattern (which requires a closing quote) fails, so the scan
emits an `DESCONOCIDO` match holding just the quote character and
resumes immediately after it. -/
theorem unterminated_string_unknown (rest : List Char)
    (h : '"' ∉ rest.takeWhile isNotNl) (fuel pos : Nat) :
    scanAux (fuel + 1) ('"' :: rest) pos =
      { tag := Tag.desconocido, lexeme := ['"'], start := pos } ::
        scanAux fuel rest (pos + 1) := by
  have hk := nextTok_unterminated rest h
  simp [scanAux, hk]

/-- C3 amended witness: the concrete input `"ab`. -/
theorem unterminated_string_unknown_witness :
    scanAux 3 ('"' :: "ab".data) 0 =
      { tag := Tag.desconocido, lexeme := ['"'], start := 0 } ::
        scanAux 2 "ab".data 1 :=
  unterminated_string_unknown "ab".data (by decide) 2 0

/-- C1: the valid example program tokenizes and parses with
`correcto = true` and an empty diagnostic list. -/
theorem valid_program_parses :
    analizar_sintactico "programa p()\x7b int a; read a; printf(\"hi\"); end; \x7d"
      (analizar_lexico "programa p()\x7b int a; read a; printf(\"hi\"); end; \x7d") =
    { correcto := true, errores := [] } := by decide

/-- C9: dropping the `;` after the declaration makes the same program
parse with `correcto = false`, and the diagnostics include the
missing-semicolon message of the declaration production. -/
theorem missing_semicolon_detected :
    (analizar_sintactico "programa p()\x7b int a printf(\"x\"); end; \x7d"
        (analizar_lexico "programa p()\x7b int a printf(\"x\"); end; \x7d")).correcto
      = false ∧
    "Falta ';' al final de la declaración." ∈
      (analizar_sintactico "programa p()\x7b int a printf(\"x\"); end; \x7d"
        (analizar_lexico "programa p()\x7b int a printf(\"x\"); end; \x7d")).errores := by
  decide

/-- C5: for every source text and token sequence the analysis yields a
total, well-formed result (the embedding is a total function), whose
`correcto` flag holds exactly when the diagnostic list is empty. -/
theorem correcto_iff_no_errores (codigo : String) (tokens : List Tok) :
    (analizar_sintactico codigo tokens).correcto = true ↔
      (analizar_sintactico codigo tokens).errores = [] := by
  unfold analizar_sintactico
  dsimp only
  rw [beq_iff_eq, List.length_eq_zero]

/-- C2: the parser terminates on every token sequence — any two fuel
budgets above an explicit bound linear in the token count produce the
identical result, so the run is completed within linearly many
production steps — and the cursor, which starts at `0` and only ever
moves forward one token at a time, ends at most `tokens.length`, so the
total number of token-cursor advances is at most the number of
tokens. -/
theorem parser_terminates_linear (tokens : List Tok) :
    (∀ f₁ f₂ : Nat, 5 * tokens.length + 5 < f₁ → 5 * tokens.length + 5 < f₂ →
        parse_programa f₁ { t := tokens, i := 0, err := [] } =
          parse_programa f₂ { t := tokens, i := 0, err := [] }) ∧
    (∀ fuel : Nat,
        (parse_programa fuel { t := tokens, i := 0, err := [] }).i ≤ tokens.length) := by
  constructor
  · intro f₁ f₂ h₁ h₂
    exact @stable_two parse_programa (fun s => 5 * rem s + 5) programaStable
      { t := tokens, i := 0, err := [] } f₁ f₂ h₁ h₂
  · intro fuel
    exact (parse_programa_inv fuel { t := tokens, i := 0, err := [] }).2.2
      (Nat.zero_le _)

/-- C2 witness: concrete fuels above the bound agree, and the final
cursor is within the (empty) token list. -/
theorem parser_terminates_linear_witness :
    parse_programa 6 { t := [], i := 0, err := [] } =
      parse_programa 7 { t := [], i := 0, err := [] } ∧
    (parse_programa 3 { t := [], i := 0, err := [] }).i ≤ 0 :=
  ⟨(parser_terminates_linear []).1 6 7 (by decide) (by decide),
   (parser_terminates_linear []).2 3⟩

/-- C6: full behavioral description of `Parser.match`: with a current
token satisfying the constraints it consumes exactly that token and
nothing else changes; with a current token violating them it appends
exactly one diagnostic (the caller's message, or the default one citing
expected versus found and the line number) and still consumes one token;
past the end of input it appends exactly one diagnostic (default citing
`EOF` and line `-`) and leaves the cursor in place. -/
theorem pmatch_spec (s : PState) (tipo lexema msg : Option String) :
    (∀ tok, peek s = some tok →
      ((okOpt tipo tok.tipo && okOpt lexema tok.lexema) = true →
          pmatch s tipo lexema msg = { s with i := s.i + 1 }) ∧
      ((okOpt tipo tok.tipo && okOpt lexema tok.lexema) = false →
          pmatch s tipo lexema msg =
            { s with i := s.i + 1,
                     err := s.err ++ [msg.getD (mensaje tipo lexema (some tok))] })) ∧
    (peek s = none →
      pmatch s tipo lexema msg =
        { s with err := s.err ++ [msg.getD (mensaje tipo lexema none)] }) := by
  refine ⟨fun tok hp => ⟨fun hok => ?_, fun hbad => ?_⟩,
    fun hn => pmatch_of_none hn tipo lexema msg⟩
  · unfold pmatch
    rw [hp]
    dsimp only
    rw [if_pos hok]
  · unfold pmatch
    rw [hp]
    dsimp only
    rw [if_neg (by rw [hbad]; exact Bool.false_ne_true)]

/-- C6 witness: a matching, a mismatching and an end-of-input call. -/
theorem pmatch_spec_witness :
    pmatch ⟨[⟨"IDENTIFICADOR", "a", 1, 1⟩], 0, []⟩ (some "IDENTIFICADOR") none none =
      ⟨[⟨"IDENTIFICADOR", "a", 1, 1⟩], 1, []⟩ ∧
    pmatch ⟨[⟨"IDENTIFICADOR", "a", 1, 1⟩], 0, []⟩ (some "NUMERO") none none =
      ⟨[⟨"IDENTIFICADOR", "a", 1, 1⟩], 1,
        ["Se esperaba NUMERO pero se encontró IDENTIFICADOR('a') (línea 1)."]⟩ ∧
    pmatch ⟨[], 0, []⟩ (some "NUMERO") none (some "msg") = ⟨[], 0, ["msg"]⟩ :=
  ⟨((pmatch_spec ⟨[⟨"IDENTIFICADOR", "a", 1, 1⟩], 0, []⟩ (some "IDENTIFICADOR") none none).1
      ⟨"IDENTIFICADOR", "a", 1, 1⟩ (by decide)).1 (by decide),
   (((pmatch_spec ⟨[⟨"IDENTIFICADOR", "a", 1, 1⟩], 0, []⟩ (some "NUMERO") none none).1
      ⟨"IDENTIFICADOR", "a", 1, 1⟩ (by decide)).2 (by decide)).trans (by decide),
   (pmatch_spec ⟨[], 0, []⟩ (some "NUMERO") none (some "msg")).2 (by decide)⟩

/-- C10: the cursor (a natural number, hence never below `0`) stays at
most the token-list length across `Parser.match` and every grammar
production, and a `match` call issued with the cursor already past the
last token appends its diagnostic while leaving the cursor unchanged. -/
theorem cursor_stays_in_bounds :
    (∀ (s : PState) (tipo lexema msg : Option String), s.i ≤ s.t.length →
        (pmatch s tipo lexema msg).i ≤ s.t.length) ∧
    (∀ (s : PState) (tipo lexema msg : Option String), s.t.length ≤ s.i →
        (pmatch s tipo lexema msg).i = s.i ∧
        (pmatch s tipo lexema msg).err =
          s.err ++ [msg.getD (mensaje tipo lexema none)]) ∧
    (∀ fuel s, s.i ≤ s.t.length → (parse_factor fuel s).i ≤ s.t.length) ∧
    (∀ fuel s, s.i ≤ s.t.length → (parse_term fuel s).i ≤ s.t.length) ∧
    (∀ fuel s, s.i ≤ s.t.length → (parse_expr fuel s).i ≤ s.t.length) ∧
    (∀ fuel s, s.i ≤ s.t.length → (declLoop fuel s).i ≤ s.t.length) ∧
    (∀ fuel s, s.i ≤ s.t.length → (parse_decl fuel s).i ≤ s.t.length) ∧
    (∀ s, s.i ≤ s.t.length → (parse_read s).i ≤ s.t.length) ∧
    (∀ s, s.i ≤ s.t.length → (parse_printf s).i ≤ s.t.length) ∧
    (∀ fuel s, s.i ≤ s.t.length → (parse_assign fuel s).i ≤ s.t.length) ∧
    (∀ fuel s, s.i ≤ s.t.length → (parse_stmt fuel s).i ≤ s.t.length) ∧
    (∀ fuel s, s.i ≤ s.t.length → (stmtLoop fuel s).i ≤ s.t.length) ∧
    (∀ fuel s, s.i ≤ s.t.length → (parse_programa fuel s).i ≤ s.t.length) := by
  refine ⟨fun s a b c h => (stInv_pmatch s a b c).2.2 h,
    fun s a b c h => ?_,
    fun fuel s h => ((exprInv fuel).2.2.2.2 s).2.2 h,
    fun fuel s h => ((exprInv fuel).2.2.1 s).2.2 h,
    fun fuel s h => ((exprInv fuel).1 s).2.2 h,
    fun fuel s h => (declLoop_inv fuel s).2.2 h,
    fun fuel s h => (parse_decl_inv fuel s).2.2 h,
    fun s h => (parse_read_inv s).2.2 h,
    fun s h => (parse_printf_inv s).2.2 h,
    fun fuel s h => (parse_assign_inv fuel s).2.2 h,
    fun fuel s h => (parse_stmt_inv fuel s).2.2 h,
    fun fuel s h => (stmtLoop_inv fuel s).2.2 h,
    fun fuel s h => (parse_programa_inv fuel s).2.2 h⟩
  rw [pmatch_of_none (peek_none h) a b c]
  exact ⟨rfl, rfl⟩

/-- C10 witness: a `match` call at the end of an empty token list, plus
a full parse of a one-token list. -/
theorem cursor_stays_in_bounds_witness :
    (pmatch ⟨[], 0, []⟩ none none (some "m")).i = 0 ∧
    (pmatch ⟨[], 0, []⟩ none none (some "m")).err = [] ++ ["m"] ∧
    (parse_programa 11 ⟨[⟨"PALABRA_RESERVADA", "end", 1, 1⟩], 0, []⟩).i ≤ 1 :=
  ⟨(cursor_stays_in_bounds.2.1 ⟨[], 0, []⟩ none none (some "m") (by decide)).1,
   (cursor_stays_in_bounds.2.1 ⟨[], 0, []⟩ none none (some "m") (by decide)).2,
   cursor_stays_in_bounds.2.2.2.2.2.2.2.2.2.2.2.2 11
     ⟨[⟨"PALABRA_RESERVADA", "end", 1, 1⟩], 0, []⟩ (by decide)⟩
